import Mathlib

/-!
Verification of the ServerSeekerV2 Minecraft scanner (Rust sources under
`src/`).  Each Rust function relevant to the checked claims is embedded as an
executable Lean definition; machine integers are modelled as `Nat`/`Int` with
explicit reductions modulo powers of two where the Rust code casts.
-/

set_option maxHeartbeats 1000000

/- ===================== Definitions ===================== -/

/-- Encoder loop of `write_varint` (src/protocol.rs:291-304), acting on the
unsigned 32-bit value `u_val`.  Each iteration takes the low seven bits
(`u_val & 0x7F`), sets the continuation bit `0x80` when `u_val >> 7` is
nonzero, pushes the byte, and stops when the shifted value is zero. -/
def write_varint_nat (u : Nat) : List Nat :=
  if h : u >>> 7 = 0 then
    [u &&& 0x7F]
  else
    ((u &&& 0x7F) ||| 0x80) :: write_varint_nat (u >>> 7)
termination_by u
decreasing_by
  rw [Nat.shiftRight_eq_div_pow] at h ⊢
  norm_num at h ⊢
  omega

/-- `write_varint` (src/protocol.rs:291-304): the `i32` argument is first cast
to `u32` (`value as u32`, i.e. reduction modulo `2^32`) and then encoded. -/
def write_varint (value : Int) : List Nat :=
  write_varint_nat ((value % 4294967296).toNat)

/-- Loop of `decode_varint` (src/protocol.rs:345-361): for each byte, OR its
low seven bits shifted by `count` into `value`; break when the byte's top bit
is clear; otherwise increase `count` by 7.  The function finally returns
`(value, count / 7 + 1)`. -/
def decode_varint_go : List Nat → Nat → Nat → Nat × Nat
  | [], value, count => (value, count / 7 + 1)
  | b :: rest, value, count =>
    let value' := value ||| ((b &&& 0x7F) <<< count)
    if b >>> 7 ≠ 1 then (value', count / 7 + 1)
    else decode_varint_go rest value' (count + 7)

/-- `decode_varint` (src/protocol.rs:345-361): returns the decoded value and
the number of bytes read. -/
def decode_varint (bytes : List Nat) : Nat × Nat :=
  decode_varint_go bytes 0 0

/-- Reinterpretation of an unsigned 32-bit value as a signed `i32` (two's
complement), the type at which `write_varint` takes its argument. -/
def as_i32 (u : Nat) : Int :=
  if u < 2147483648 then (u : Int) else (u : Int) - 4294967296

/-- Initial supervisor backoff, one second (src/main.rs:137). -/
def initial_backoff : Nat := 1

/-- Failure branch of the supervisor loop (src/main.rs:162-166): the task
panicked, so the supervisor sleeps for the current backoff and then doubles it
with a 60-second ceiling.  Returns `(sleep performed, new backoff)`. -/
def supervisor_on_failure (backoff : Nat) : Nat × Nat :=
  (backoff, min (backoff * 2) 60)

/-- Success branch of the supervisor loop (src/main.rs:157-161): the scanner
finished cleanly, so the supervisor sleeps 5 seconds and resets the backoff to
one second.  Returns `(sleep performed, new backoff)`. -/
def supervisor_on_success (_backoff : Nat) : Nat × Nat :=
  (5, initial_backoff)

/-- Backoff value held by the supervisor after `k` consecutive failures
(starting from `initial_backoff`). -/
def backoff_after : Nat → Nat
  | 0 => initial_backoff
  | k + 1 => (supervisor_on_failure (backoff_after k)).2

/-- Errors that the response-reading phase of `proper_ping` can produce:
`read_exact` hitting end of stream, the "VarInt too big" `InvalidData` error of
`read_varint_from_stream` (src/protocol.rs:336), and
`RunError::MalformedResponse` for a nonzero packet id (src/protocol.rs:249). -/
inductive PingReadError where
  | unexpected_eof
  | varint_too_big
  | malformed_response
deriving DecidableEq, Repr

/-- Loop of `read_varint_from_stream` (src/protocol.rs:320-340) over the bytes
still unread from the socket: read one byte, OR its low seven bits shifted by
`count` into `value`, stop when the top bit is clear; after seven more shift
bits, fail with "VarInt too big" once `count` reaches 35. -/
def read_varint_from_stream_go : List Nat → Nat → Nat → Except PingReadError (Nat × List Nat)
  | [], _, _ => .error .unexpected_eof
  | b :: rest, value, count =>
    let value' := value ||| ((b &&& 0x7F) <<< count)
    if b &&& 0x80 = 0 then .ok (value', rest)
    else if count + 7 ≥ 35 then .error .varint_too_big
    else read_varint_from_stream_go rest value' (count + 7)

/-- `read_varint_from_stream` (src/protocol.rs:320-340): the stream is
modelled as the list of bytes the server will deliver; returns the decoded
value and the bytes left unread. -/
def read_varint_from_stream (input : List Nat) : Except PingReadError (Nat × List Nat) :=
  read_varint_from_stream_go input 0 0

/-- Condition of the sanity-check `if` in `proper_ping`
(src/protocol.rs:265-268).  The body of that `if` is empty (it contains only
comments), so the condition has no effect on execution; it is kept here to
state that fact. -/
def json_len_sanity_condition (json_len : Nat) : Bool :=
  json_len == 0 || decide (json_len > 32767 * 4)

/-- Response-reading phase of `proper_ping` (src/protocol.rs:238-287): read
`packet_length` (discarded), read `packet_id` and reject nonzero ids, read
`json_len`, then allocate `vec![0u8; json_len]` — a buffer of exactly the
server-declared length — and `read_exact` into it.  The sanity-check `if` at
lines 265-268 has an empty body and rejects nothing.  Returns the allocated
buffer size together with the JSON bytes. -/
def proper_ping_read_response (input : List Nat) : Except PingReadError (Nat × List Nat) :=
  match read_varint_from_stream input with
  | .error e => .error e
  | .ok (_packet_len, r1) =>
    match read_varint_from_stream r1 with
    | .error e => .error e
    | .ok (packet_id, r2) =>
      if packet_id ≠ 0 then .error .malformed_response
      else
        match read_varint_from_stream r2 with
        | .error e => .error e
        | .ok (json_len, r3) =>
          let alloc := json_len
          if r3.length < json_len then .error .unexpected_eof
          else .ok (alloc, r3.take json_len)

/-- Size of the buffer `proper_ping` allocates at src/protocol.rs:271
(`vec![0u8; json_len]`), as a function of the incoming bytes; `none` when
execution errors out before reaching the allocation.  The allocation happens
before `read_exact`, so it occurs even when the stream then runs dry. -/
def proper_ping_alloc (input : List Nat) : Option Nat :=
  match read_varint_from_stream input with
  | .error _ => none
  | .ok (_packet_len, r1) =>
    match read_varint_from_stream r1 with
    | .error _ => none
    | .ok (packet_id, r2) =>
      if packet_id ≠ 0 then none
      else
        match read_varint_from_stream r2 with
        | .error _ => none
        | .ok (json_len, _r3) => some json_len

/-- The process-wide semaphore capacity, `Semaphore::const_new(1000)`
(src/scanner.rs:22). -/
def PERMITS : Nat := 1000

/-- Abstract state of the scan orchestrator: permits still available in the
`PERMITS` semaphore and worker ping tasks currently in flight. -/
structure OrchestratorState where
  available : Nat
  inFlight : Nat
deriving DecidableEq, Repr

/-- Steps of the rescan consumer loop (src/scanner.rs:168-181): a worker is
spawned only after `PERMITS.acquire()` succeeds (one permit taken), the permit
is moved into the task and held for its lifetime, and finishing the task
returns the permit. -/
inductive RescanStep : OrchestratorState → OrchestratorState → Prop where
  | spawn (s : OrchestratorState) (h : 0 < s.available) :
      RescanStep s ⟨s.available - 1, s.inFlight + 1⟩
  | finish (s : OrchestratorState) (h : 0 < s.inFlight) :
      RescanStep s ⟨s.available + 1, s.inFlight - 1⟩

/-- Steps of the discovery-mode stdout loops (`run_masscan_once`,
src/scanner.rs:324-360, and `run_rustscan_once`, src/scanner.rs:463-490): a
ping task is spawned for each discovered host with no semaphore interaction at
all — `PERMITS.acquire()` is never called on this path — and a finishing task
releases nothing. -/
inductive DiscoveryStep : OrchestratorState → OrchestratorState → Prop where
  | spawn (s : OrchestratorState) :
      DiscoveryStep s ⟨s.available, s.inFlight + 1⟩
  | finish (s : OrchestratorState) (h : 0 < s.inFlight) :
      DiscoveryStep s ⟨s.available, s.inFlight - 1⟩

/-- Initial orchestrator state: all `PERMITS` permits free, no task running. -/
def initOrchestrator : OrchestratorState := ⟨PERMITS, 0⟩

/-- Result of processing one line of masscan stdout
(src/scanner.rs:324-343): `skip` models `continue`, `found` a parsed
host/port, and `panicked` the `unwrap` at src/scanner.rs:341 firing. -/
inductive MasscanLineResult where
  | skip
  | found (port : Nat) (address : Nat × Nat × Nat × Nat)
  | panicked
deriving DecidableEq, Repr

/-- Worker for `split_whitespace`: walk the characters keeping the current
word (reversed); whitespace ends the word, non-whitespace extends it. -/
def split_whitespace_go : List Char → List Char → List String
  | [], word => if word.isEmpty then [] else [String.mk word.reverse]
  | c :: rest, word =>
    if c.isWhitespace then
      if word.isEmpty then split_whitespace_go rest []
      else String.mk word.reverse :: split_whitespace_go rest []
    else split_whitespace_go rest (c :: word)

/-- Whitespace splitting as done by Rust `str::split_whitespace`: the maximal
runs of non-whitespace characters (empty substrings dropped). -/
def split_whitespace (s : String) : List String :=
  split_whitespace_go s.data []

/-- Worker for `split_char`. -/
def split_char_go (sep : Char) : List Char → List Char → List String
  | [], word => [String.mk word.reverse]
  | c :: rest, word =>
    if c = sep then String.mk word.reverse :: split_char_go sep rest []
    else split_char_go sep rest (c :: word)

/-- Splitting on a separator character as done by Rust `str::split(char)`:
empty pieces are kept, and the number of pieces is one more than the number of
separators. -/
def split_char (s : String) (sep : Char) : List String :=
  split_char_go sep s.data []

/-- Rust `str::starts_with(str)`. -/
def str_starts_with (s pat : String) : Bool :=
  pat.data.isPrefixOf s.data

/-- Decimal digit test. -/
def isDigitChar (c : Char) : Bool := '0' ≤ c && c ≤ '9'

/-- Numeric value of a list of decimal digit characters. -/
def digitsVal : List Char → Nat → Nat
  | [], acc => acc
  | c :: rest, acc => digitsVal rest (acc * 10 + (c.toNat - '0'.toNat))

/-- Rust `u16::from_str` (`"25565".parse::<u16>()`): an optional leading `+`,
then at least one decimal digit, value at most 65535. -/
def parse_u16 (s : String) : Option Nat :=
  let cs := match s.data with
    | '+' :: rest => rest
    | cs => cs
  if cs ≠ [] && cs.all isDigitChar then
    let v := digitsVal cs 0
    if v ≤ 65535 then some v else none
  else none

/-- Rust `Ipv4Addr::from_str` on one dotted component: nonempty, all decimal
digits, at most three characters, no leading zero (except `"0"` itself),
value at most 255. -/
def parse_octet (s : String) : Option Nat :=
  let cs := s.data
  if cs ≠ [] && cs.all isDigitChar && cs.length ≤ 3 &&
      !(cs.length > 1 && cs.headD '0' = '0') then
    let v := digitsVal cs 0
    if v ≤ 255 then some v else none
  else none

/-- Rust `Ipv4Addr::from_str`: exactly four dot-separated octets. -/
def parse_ipv4 (s : String) : Option (Nat × Nat × Nat × Nat) :=
  match (split_char s '.').map parse_octet with
  | [some a, some b, some c, some d] => some (a, b, c, d)
  | _ => none

/-- One iteration of the masscan stdout loop (src/scanner.rs:324-343):
whitespace-split the line; take the 4th field, split it on `/` and parse the
first piece as `u16` (`continue` on failure); take the 6th field (`continue`
when missing) and feed it to `Ipv4Addr::from_str(address).unwrap()` — a parse
failure there panics the task instead of skipping the line. -/
def masscan_parse_line (line : String) : MasscanLineResult :=
  let fields := split_whitespace line
  match fields.get? 3 with
  | none => .skip
  | some f4 =>
    match parse_u16 ((split_char f4 '/').headD "") with
    | none => .skip
    | some port =>
      match fields.get? 5 with
      | none => .skip
      | some f6 =>
        match parse_ipv4 f6 with
        | some addr => .found port addr
        | none => .panicked

/-- The `MinecraftColorCodes` enum (src/utils.rs:37-57). -/
inductive MinecraftColorCodes where
  | Black | DarkBlue | DarkGreen | DarkAqua | DarkRed | DarkPurple
  | Gold | Gray | DarkGray | Blue | Green | Aqua | Red | LightPurple
  | Yellow | White | Reset | UnknownValue
deriving DecidableEq, Repr

/-- `MinecraftColorCodes::get_code` (src/utils.rs:131-154). -/
def get_code : MinecraftColorCodes → Char
  | .Black => '0'
  | .DarkBlue => '1'
  | .DarkGreen => '2'
  | .DarkAqua => '3'
  | .DarkRed => '4'
  | .DarkPurple => '5'
  | .Gold => '6'
  | .Gray => '7'
  | .DarkGray => '8'
  | .Blue => '9'
  | .Green => 'a'
  | .Aqua => 'b'
  | .Red => 'c'
  | .LightPurple => 'd'
  | .Yellow => 'e'
  | .White => 'f'
  | .Reset => 'r'
  | .UnknownValue => 'r'

/-- The named-color match arms of `impl From<&str> for MinecraftColorCodes`
(src/utils.rs:63-80), in source order, with both spellings of the aliased
arms. -/
def named_color_table : List (String × MinecraftColorCodes) :=
  [("black", .Black), ("dark_blue", .DarkBlue), ("dark_green", .DarkGreen),
   ("dark_aqua", .DarkAqua), ("dark_red", .DarkRed),
   ("dark_purple", .DarkPurple), ("purple", .DarkPurple), ("gold", .Gold),
   ("gray", .Gray), ("grey", .Gray), ("dark_gray", .DarkGray),
   ("dark_grey", .DarkGray), ("blue", .Blue), ("green", .Green),
   ("aqua", .Aqua), ("red", .Red), ("pink", .LightPurple),
   ("light_purple", .LightPurple), ("yellow", .Yellow), ("white", .White),
   ("reset", .Reset)]

/-- Sequential test of the match arms: the first key equal to `s` wins
(string equality, compared on the character lists). -/
def lookup_named : List (String × MinecraftColorCodes) → String → Option MinecraftColorCodes
  | [], _ => none
  | (k, v) :: rest, s => if s.data = k.data then some v else lookup_named rest s

/-- One hexadecimal digit as accepted by Rust `u8::from_str_radix(_, 16)`:
`0-9`, `a-f`, `A-F` (compared by code point). -/
def parse_hex_digit (c : Char) : Option Nat :=
  if '0'.toNat ≤ c.toNat ∧ c.toNat ≤ '9'.toNat then some (c.toNat - '0'.toNat)
  else if 'a'.toNat ≤ c.toNat ∧ c.toNat ≤ 'f'.toNat then some (c.toNat - 'a'.toNat + 10)
  else if 'A'.toNat ≤ c.toNat ∧ c.toNat ≤ 'F'.toNat then some (c.toNat - 'A'.toNat + 10)
  else none

/-- Rust `u8::from_str_radix` on a two-character slice: an optional leading
`+` (in which case only the second character is parsed), otherwise two hex
digits. -/
def parse_hex_u8 (c1 c2 : Char) : Option Nat :=
  if c1 = '+' then parse_hex_digit c2
  else
    match parse_hex_digit c1, parse_hex_digit c2 with
    | some d1, some d2 => some (16 * d1 + d2)
    | _, _ => none

/-- The sixteen legacy palette entries of `hex_to_nearest_legacy`
(src/utils.rs:93-110), in source order: black first, white last. -/
def legacy_palette : List (MinecraftColorCodes × Int × Int × Int) :=
  [(.Black, 0, 0, 0), (.DarkBlue, 0, 0, 170), (.DarkGreen, 0, 170, 0),
   (.DarkAqua, 0, 170, 170), (.DarkRed, 170, 0, 0), (.DarkPurple, 170, 0, 170),
   (.Gold, 255, 170, 0), (.Gray, 170, 170, 170), (.DarkGray, 85, 85, 85),
   (.Blue, 85, 85, 255), (.Green, 85, 255, 85), (.Aqua, 85, 255, 255),
   (.Red, 255, 85, 85), (.LightPurple, 255, 85, 255), (.Yellow, 255, 255, 85),
   (.White, 255, 255, 255)]

/-- Squared Euclidean RGB distance computed in the palette loop
(src/utils.rs:115-119), in `i32` arithmetic (no overflow is possible: all
operands are at most 255 in absolute value). -/
def color_dist (rgb : Int × Int × Int) (entry : MinecraftColorCodes × Int × Int × Int) : Int :=
  let dr := entry.2.1 - rgb.1
  let dg := entry.2.2.1 - rgb.2.1
  let db := entry.2.2.2 - rgb.2.2
  dr * dr + dg * dg + db * db

/-- Loop body of `hex_to_nearest_legacy` (src/utils.rs:115-125): keep the
accumulator `(min_dist, closest)` unless this entry's distance is strictly
smaller. -/
def nearest_step (rgb : Int × Int × Int) (acc : Int × MinecraftColorCodes)
    (entry : MinecraftColorCodes × Int × Int × Int) : Int × MinecraftColorCodes :=
  if color_dist rgb entry < acc.1 then (color_dist rgb entry, entry.1) else acc

/-- `hex_to_nearest_legacy` (src/utils.rs:88-128): parse the three
two-character components at byte ranges 1..3, 3..5, 5..7 with
`u8::from_str_radix(_, 16).unwrap_or(0)`, then scan the palette with
`min_dist` starting at `i32::MAX` and `closest` starting at `Reset`.  The
function is only reached on 7-byte strings starting with `#`; character
positions are used for the component slices, which agrees with Rust's byte
slices on ASCII input (the domain of every claim below). -/
def hex_to_nearest_legacy (hex : String) : MinecraftColorCodes :=
  let cs := hex.data
  let r : Int := ((parse_hex_u8 (cs.getD 1 ' ') (cs.getD 2 ' ')).getD 0 : Nat)
  let g : Int := ((parse_hex_u8 (cs.getD 3 ' ') (cs.getD 4 ' ')).getD 0 : Nat)
  let b : Int := ((parse_hex_u8 (cs.getD 5 ' ') (cs.getD 6 ' ')).getD 0 : Nat)
  (legacy_palette.foldl (nearest_step (r, g, b)) (2147483647, .Reset)).2

/-- `impl From<&str> for MinecraftColorCodes` (src/utils.rs:59-86): the named
arms in order, then the guarded hex arm
`s if s.starts_with('#') && s.len() == 7` (Rust `len()` is the UTF-8 byte
length, `String.utf8ByteSize` here), and finally the wildcard
`UnknownValue`. -/
def color_from_str (s : String) : MinecraftColorCodes :=
  match lookup_named named_color_table s with
  | some c => c
  | none =>
    if str_starts_with s "#" && (s.utf8ByteSize == 7) then hex_to_nearest_legacy s
    else .UnknownValue

/-- `serde_json::Value`, restricted to what the scanner consumes: JSON
numbers are modelled as integers (none of the embedded functions inspects
fractional values). -/
inductive JValue where
  | null
  | bool (b : Bool)
  | num (n : Int)
  | str (s : String)
  | arr (elems : List JValue)
  | obj (entries : List (String × JValue))

/-- `serde_json` map lookup (`object.get(key)` / `contains_key`): the entry
list of an object is kept in `BTreeMap` form — sorted by key, keys distinct —
so the first matching key is the only one. -/
def lookup_entry : List (String × JValue) → String → Option JValue
  | [], _ => none
  | (k, v) :: rest, key => if k = key then some v else lookup_entry rest key

/-- `BTreeMap` insertion into a key-sorted entry list: place the new entry
before the first larger key, replacing an equal key. -/
def insert_sorted : List (String × JValue) → String × JValue → List (String × JValue)
  | [], e => [e]
  | (k, v) :: rest, e =>
    if e.1 < k then e :: (k, v) :: rest
    else if e.1 = k then e :: rest
    else (k, v) :: insert_sorted rest e

/-- Construction of a `serde_json` object from fields in serialized order:
`serde_json`'s default map is a `BTreeMap<String, Value>`, so parsing inserts
the fields one by one into a key-sorted map (later duplicates overwrite). -/
def mk_obj (l : List (String × JValue)) : JValue :=
  .obj (l.foldl insert_sorted [])

/-- One iteration of the flag/color loop of `build_formatted_description`
(src/response.rs:147-192): the five boolean format flags emit their `§` code
when the value is boolean `true` (`value.as_bool()`), `color` emits
`§<code>` for a string value (`value.as_str()`), and every other key emits
nothing. -/
def flag_emit (key : String) (v : JValue) : String :=
  match key with
  | "obfuscated" => match v with | .bool true => "§k" | _ => ""
  | "bold" => match v with | .bool true => "§l" | _ => ""
  | "strikethrough" => match v with | .bool true => "§m" | _ => ""
  | "underline" => match v with | .bool true => "§n" | _ => ""
  | "italic" => match v with | .bool true => "§o" | _ => ""
  | "color" =>
    match v with
    | .str c => "§" ++ (get_code (color_from_str c)).toString
    | _ => ""
  | _ => ""

/-- The `for (key, value) in object` loop of `build_formatted_description`
(src/response.rs:147-192), over the map's (sorted) entry order. -/
def build_flags : List (String × JValue) → String
  | [] => ""
  | (k, v) :: rest => flag_emit k v ++ build_flags rest

theorem sizeOf_lookup_entry {entries : List (String × JValue)} {key : String}
    {v : JValue} (h : lookup_entry entries key = some v) :
    sizeOf v < sizeOf entries := by
  induction entries with
  | nil => simp [lookup_entry] at h
  | cons hd tl ih =>
    obtain ⟨k, val⟩ := hd
    unfold lookup_entry at h
    split at h
    · simp only [Option.some.injEq] at h
      subst h
      simp only [List.cons.sizeOf_spec, Prod.mk.sizeOf_spec]
      omega
    · have := ih h
      simp only [List.cons.sizeOf_spec]
      omega

mutual
/-- `build_formatted_description` (src/response.rs:136-215): a string value
contributes itself; an array the concatenation of its recursively formatted
elements; an object first runs the flag/color loop over its entries, then
appends its `text` field (`contains_key("text")`, `get("text")`,
`as_str()`), then recursively formats its `extra` value
(`contains_key("extra")`, `get("extra")`); all other values contribute
nothing. -/
def build_formatted_description : JValue → String
  | .str s => s
  | .arr elems => build_concat elems
  | .obj entries =>
    build_flags entries ++
    (match lookup_entry entries "text" with
     | some (.str t) => t
     | _ => "") ++
    (match h : lookup_entry entries "extra" with
     | some e => build_formatted_description e
     | none => "")
  | _ => ""
termination_by v => sizeOf v
decreasing_by
  · simp only [JValue.arr.sizeOf_spec]
    omega
  · have := sizeOf_lookup_entry h
    simp only [JValue.obj.sizeOf_spec]
    omega

/-- The `for value in array` loop of the `Value::Array` arm
(src/response.rs:141-145). -/
def build_concat : List JValue → String
  | [] => ""
  | v :: rest => build_formatted_description v ++ build_concat rest
termination_by l => sizeOf l
decreasing_by
  · simp only [List.cons.sizeOf_spec]
    omega
  · simp only [List.cons.sizeOf_spec]
    omega
end

/-- The `text` contribution of an object (src/response.rs:197-203). -/
def obj_text_part (entries : List (String × JValue)) : String :=
  match lookup_entry entries "text" with
  | some (.str t) => t
  | _ => ""

/-- The `extra` contribution of an object (src/response.rs:205-209). -/
def obj_extra_part (entries : List (String × JValue)) : String :=
  match lookup_entry entries "extra" with
  | some e => build_formatted_description e
  | none => ""

/-- `Version` (src/response.rs:29-32). -/
structure Version where
  name : String
  protocol : Int

/-- `Player` (src/response.rs:44-47). -/
structure Player where
  id : String
  name : String

/-- `Players` (src/response.rs:36-40). -/
structure Players where
  max : Int
  online : Int
  sample : Option (List Player)

/-- `Mod` (src/response.rs:60-65); named `ServerMod` here because `Mod` is
taken by the ambient library. -/
structure ServerMod where
  id : String
  version : String

/-- `ForgeData` (src/response.rs:51-56). -/
structure ForgeData where
  mods : List ServerMod

/-- `Server` (src/response.rs:7-25), the deserialized status document. -/
structure Server where
  latency : Option Int
  version : Version
  favicon : Option String
  players : Players
  description_raw : Option JValue
  description_formatted : Option String
  prevents_reports : Option Bool
  enforces_secure_chat : Option Bool
  modded : Option Bool
  forge_data : Option ForgeData

/-- Substring search over character lists (Rust `str::contains(&str)`; on
valid UTF-8, byte-level and character-level substring occurrence agree). -/
def list_contains_sub (pat : List Char) : List Char → Bool
  | [] => pat.isEmpty
  | c :: rest => pat.isPrefixOf (c :: rest) || list_contains_sub pat rest

/-- Rust `str::contains(&str)`. -/
def str_contains (s pat : String) : Bool :=
  list_contains_sub pat.data s.data

/-- Rust `str::to_lowercase` restricted to the ASCII mapping
(`Char.toLower`); every pattern the classifier matches is ASCII. -/
def to_lowercase (s : String) : String :=
  ⟨s.data.map Char.toLower⟩

/-- `Server::get_type` (src/response.rs:68-125): `modded` first, then
`forge_data`, then the ordered case-insensitive substring cascade on
`version.name`, defaulting to `"Java"`. -/
def get_type (s : Server) : String :=
  if s.modded.isSome then "Neoforge"
  else if s.forge_data.isSome then "Lexforge"
  else
    let version_name := to_lowercase s.version.name
    if str_contains version_name "velocity" then "Velocity"
    else if str_contains version_name "waterfall" then "Waterfall"
    else if str_contains version_name "bungeecord" then "Bungeecord"
    else if str_contains version_name "leaves" then "Leaves"
    else if str_contains version_name "folia" then "Folia"
    else if str_contains version_name "purpur" then "Purpur"
    else if str_contains version_name "pufferfish" then "Pufferfish"
    else if str_contains version_name "paper" then "Paper"
    else if str_contains version_name "spigot" then "Spigot"
    else if str_contains version_name "bukkit" then "Bukkit"
    else "Java"

/-- The §4.3 name cascade as an ordered rule table, spec-side shape for the
refinement statement of C4: most-specific first, `velocity` … `bukkit`. -/
def name_rules : List (String × String) :=
  [("velocity", "Velocity"), ("waterfall", "Waterfall"),
   ("bungeecord", "Bungeecord"), ("leaves", "Leaves"), ("folia", "Folia"),
   ("purpur", "Purpur"), ("pufferfish", "Pufferfish"), ("paper", "Paper"),
   ("spigot", "Spigot"), ("bukkit", "Bukkit")]

/-- The classifier as the spec words it: `modded` present → `Neoforge`;
else `forge_data` present → `Lexforge`; else the first rule of `name_rules`
whose pattern occurs in the lowercased `version.name`, defaulting to
`"Java"`. -/
def get_type_spec (s : Server) : String :=
  if s.modded.isSome then "Neoforge"
  else if s.forge_data.isSome then "Lexforge"
  else
    (name_rules.findSome? (fun r =>
      if str_contains (to_lowercase s.version.name) r.1 then some r.2
      else none)).getD "Java"

/-- `Server::check_opt_out` (src/response.rs:128-133). -/
def check_opt_out (s : Server) : Bool :=
  match s.description_formatted with
  | some description => str_contains description "§b§d§f§d§b"
  | none => false

/-- The synthetic status document built by `legacy_ping`
(src/protocol.rs:162-175 and 187-200): the `json!` object always has the
shape `{version: {name, protocol}, players: {max, online, sample: []},
description: {text: motd}}`, captured here by its five varying fields. -/
structure LegacyStatus where
  version_name : String
  protocol : Int
  motd : String
  online : Int
  max : Int
deriving DecidableEq, Repr

/-- Rust `i32::from_str` (`parts[i].parse::<i32>()`): an optional sign, then
at least one decimal digit, rejecting values outside the `i32` range. -/
def parse_i32 (s : String) : Option Int :=
  let sign : Int := match s.data with
    | '-' :: _ => -1
    | _ => 1
  let cs := match s.data with
    | '-' :: rest => rest
    | '+' :: rest => rest
    | cs => cs
  if cs ≠ [] && cs.all isDigitChar then
    let n : Int := sign * (digitsVal cs 0 : Nat)
    if -2147483648 ≤ n ∧ n ≤ 2147483647 then some n else none
  else none

/-- String-analysis phase of `legacy_ping` (src/protocol.rs:150-206), applied
to the already-decoded UTF-16BE response string.  If the string starts with
`"§1\0"`, split on NUL and require **at least** six parts (`parts.len() >= 6`),
taking protocol, version, motd, online, max from parts 1-5 with
`parse::<i32>().unwrap_or(0)` for the numbers.  Otherwise split on `§` and
require **at least** three parts (`parts.len() >= 3`), synthesizing
`version.name = "Legacy < 1.6"`, `protocol = 0`.  `none` models the final
`Err(RunError::MalformedResponse)`. -/
def legacy_parse (s : String) : Option LegacyStatus :=
  if str_starts_with s "§1\x00" then
    let parts := split_char s '\x00'
    if parts.length ≥ 6 then
      some ⟨parts.getD 2 "", (parse_i32 (parts.getD 1 "")).getD 0,
        parts.getD 3 "", (parse_i32 (parts.getD 4 "")).getD 0,
        (parse_i32 (parts.getD 5 "")).getD 0⟩
    else none
  else
    let parts := split_char s '§'
    if parts.length ≥ 3 then
      some ⟨"Legacy < 1.6", 0, parts.getD 0 "",
        (parse_i32 (parts.getD 1 "")).getD 0,
        (parse_i32 (parts.getD 2 "")).getD 0⟩
    else none

/- ===================== Theorems ===================== -/

theorem write_varint_nat_base {u : Nat} (h : u >>> 7 = 0) :
    write_varint_nat u = [u &&& 0x7F] := by
  rw [write_varint_nat]
  simp [h]

theorem write_varint_nat_step {u : Nat} (h : ¬ u >>> 7 = 0) :
    write_varint_nat u = ((u &&& 0x7F) ||| 0x80) :: write_varint_nat (u >>> 7) := by
  rw [write_varint_nat]
  simp [h]

theorem and_127_eq_mod (u : Nat) : u &&& 127 = u % 128 := by
  have h := Nat.and_pow_two_sub_one_eq_mod u 7
  norm_num at h
  exact h

theorem or_shift_align (u c : Nat) :
    ((u &&& 127) <<< c) ||| ((u >>> 7) <<< (c + 7)) = u <<< c := by
  apply Nat.eq_of_testBit_eq
  intro i
  have h127 : (127 : Nat) = 2 ^ 7 - 1 := by norm_num
  simp only [Nat.testBit_or, Nat.testBit_shiftLeft, Nat.testBit_and,
    Nat.testBit_shiftRight, h127, Nat.testBit_two_pow_sub_one]
  by_cases h1 : c ≤ i
  · by_cases h2 : i - c < 7
    · have h3 : ¬ c + 7 ≤ i := by omega
      simp [h1, h2, h3]
    · have h3 : c + 7 ≤ i := by omega
      have h4 : 7 + (i - (c + 7)) = i - c := by omega
      simp [h1, h2, h3, h4]
  · have h3 : ¬ c + 7 ≤ i := by omega
    simp [h1, h3]

theorem cont_byte_shift (u : Nat) : ((u &&& 127) ||| 128) >>> 7 = 1 := by
  have hle : u &&& 127 ≤ 127 := Nat.and_le_right
  have hlt : ((u &&& 127) ||| 128) < 256 := by
    have h1 : u &&& 127 < 2 ^ 8 := by omega
    have h2 : (128 : Nat) < 2 ^ 8 := by norm_num
    have h3 := Nat.or_lt_two_pow h1 h2
    norm_num at h3
    exact h3
  have hge : 128 ≤ ((u &&& 127) ||| 128) := by
    have hbit : ((u &&& 127) ||| 128).testBit 7 = true := by
      rw [Nat.testBit_or]
      have h7 : Nat.testBit 128 7 = true := by decide
      simp [h7]
    exact Nat.testBit_implies_ge hbit
  rw [Nat.shiftRight_eq_div_pow]
  norm_num
  omega

theorem decode_go_write (u : Nat) :
    ∀ v c, decode_varint_go (write_varint_nat u) v c =
      (v ||| (u <<< c), c / 7 + (write_varint_nat u).length) := by
  induction u using Nat.strong_induction_on with
  | _ u ih =>
    intro v c
    by_cases h : u >>> 7 = 0
    · rw [write_varint_nat_base h]
      have hu : u < 128 := by
        rw [Nat.shiftRight_eq_div_pow] at h
        norm_num at h
        omega
      have hb : (u &&& 0x7F) >>> 7 = 0 := by
        rw [and_127_eq_mod]
        rw [Nat.shiftRight_eq_div_pow]
        norm_num
      have heq : u &&& 0x7F = u := by
        rw [and_127_eq_mod]
        exact Nat.mod_eq_of_lt hu
      simp [decode_varint_go, hb, heq, h]
    · rw [write_varint_nat_step h]
      have hcont : ((u &&& 0x7F) ||| 0x80) >>> 7 = 1 := cont_byte_shift u
      have hlow : ((u &&& 0x7F) ||| 0x80) &&& 0x7F = u &&& 0x7F := by
        apply Nat.eq_of_testBit_eq
        intro i
        have h127 : (127 : Nat) = 2 ^ 7 - 1 := by norm_num
        have h128 : (128 : Nat) = 2 ^ 7 := by norm_num
        simp only [Nat.testBit_or, Nat.testBit_and, h127, h128,
          Nat.testBit_two_pow_sub_one, Nat.testBit_two_pow]
        by_cases hi : i < 7
        · have : ¬ (7 = i) := by omega
          simp [hi, this]
        · simp [hi]
      have hdec : u >>> 7 < u := by
        rw [Nat.shiftRight_eq_div_pow] at h ⊢
        norm_num at h ⊢
        omega
      have ihh := ih (u >>> 7) hdec (v ||| ((u &&& 0x7F) <<< c)) (c + 7)
      simp only [decode_varint_go, hcont, hlow]
      norm_num
      rw [ihh]
      simp only [Prod.mk.injEq]
      constructor
      · rw [Nat.or_assoc, or_shift_align]
      · have hc : (c + 7) / 7 = c / 7 + 1 := by omega
        rw [hc]
        omega

theorem write_varint_nat_length :
    ∀ k u, u < 2 ^ (7 * (k + 1)) → (write_varint_nat u).length ≤ k + 1 := by
  intro k
  induction k with
  | zero =>
    intro u hu
    norm_num at hu
    have h : u >>> 7 = 0 := by
      rw [Nat.shiftRight_eq_div_pow]
      norm_num
      omega
    rw [write_varint_nat_base h]
    simp
  | succ k ihk =>
    intro u hu
    by_cases h : u >>> 7 = 0
    · rw [write_varint_nat_base h]
      simp only [List.length_singleton]
      omega
    · rw [write_varint_nat_step h]
      simp only [List.length_cons]
      have hrec : u >>> 7 < 2 ^ (7 * (k + 1)) := by
        rw [Nat.shiftRight_eq_div_pow]
        have : u < 2 ^ 7 * 2 ^ (7 * (k + 1)) := by
          rw [← pow_add]
          have he : 7 + 7 * (k + 1) = 7 * (k + 1 + 1) := by ring
          rw [he]
          exact hu
        exact Nat.div_lt_of_lt_mul (by omega)
      have := ihk (u >>> 7) hrec
      omega

/-- C3: for every 32-bit signed integer `x`, decoding `write_varint x` returns
the 32-bit value of `x` (i.e. `x` reinterpreted through the `i32`/`u32` cast)
together with the number of encoded bytes, and the encoding is at most five
bytes long. -/
theorem c3_varint_roundtrip (x : Int)
    (h1 : -2147483648 ≤ x) (h2 : x < 2147483648) :
    decode_varint (write_varint x) =
      ((x % 4294967296).toNat, (write_varint x).length) ∧
    (write_varint x).length ≤ 5 ∧
    as_i32 (decode_varint (write_varint x)).1 = x := by
  have hround : decode_varint (write_varint x) =
      ((x % 4294967296).toNat, (write_varint x).length) := by
    unfold decode_varint write_varint
    rw [decode_go_write]
    simp
  refine ⟨hround, ?_, ?_⟩
  · unfold write_varint
    have hlt : (x % 4294967296).toNat < 2 ^ (7 * 5) := by
      have h3 : (0 : Int) ≤ x % 4294967296 := Int.emod_nonneg x (by norm_num)
      have h4 : x % 4294967296 < 4294967296 := Int.emod_lt_of_pos x (by norm_num)
      have : (x % 4294967296).toNat < 4294967296 := by omega
      calc (x % 4294967296).toNat < 4294967296 := this
        _ < 2 ^ (7 * 5) := by norm_num
    exact write_varint_nat_length 4 _ hlt
  · rw [hround]
    simp only [as_i32]
    split <;> omega

/-- Witness for C3 at the concrete input `x = -1`. -/
theorem c3_varint_roundtrip_witness :
    (-2147483648 ≤ (-1 : Int)) ∧ ((-1 : Int) < 2147483648) ∧
    (decode_varint (write_varint (-1)) =
      (((-1 : Int) % 4294967296).toNat, (write_varint (-1)).length) ∧
    (write_varint (-1)).length ≤ 5 ∧
    as_i32 (decode_varint (write_varint (-1))).1 = (-1 : Int)) :=
  ⟨by decide, by decide, c3_varint_roundtrip (-1) (by decide) (by decide)⟩

theorem backoff_after_eq (k : Nat) : backoff_after k = min (2 ^ k) 60 := by
  induction k with
  | zero => simp [backoff_after, initial_backoff]
  | succ k ih =>
    simp only [backoff_after, supervisor_on_failure, ih]
    rcases le_or_lt (2 ^ k) 60 with h | h
    · rw [pow_succ]
      omega
    · have h2 : 60 < 2 ^ (k + 1) := by
        calc (60 : Nat) < 2 ^ k := h
          _ ≤ 2 ^ (k + 1) := Nat.pow_le_pow_right (by norm_num) (by omega)
      omega

/-- C9: after `k ≥ 1` consecutive supervisor restarts caused by task failure,
the sleep performed before the next attempt is `min (2^k) 60` seconds, and a
clean completion resets the backoff to its initial one-second value. -/
theorem c9_supervisor_backoff (k : Nat) (hk : 1 ≤ k) :
    (supervisor_on_failure (backoff_after k)).1 = min (2 ^ k) 60 ∧
    ∀ b, (supervisor_on_success b).2 = initial_backoff := by
  constructor
  · simp only [supervisor_on_failure, backoff_after_eq]
  · intro b
    rfl

/-- Witness for C9 at `k = 7`. -/
theorem c9_supervisor_backoff_witness :
    (1 ≤ 7) ∧
    ((supervisor_on_failure (backoff_after 7)).1 = min (2 ^ 7) 60 ∧
     ∀ b, (supervisor_on_success b).2 = initial_backoff) :=
  ⟨by decide, c9_supervisor_backoff 7 (by decide)⟩

theorem small_and_128 {x : Nat} (h : x < 128) : x &&& 128 = 0 := by
  apply Nat.eq_of_testBit_eq
  intro i
  have h128 : (128 : Nat) = 2 ^ 7 := by norm_num
  simp only [Nat.testBit_and, h128, Nat.testBit_two_pow, Nat.zero_testBit]
  by_cases hi : (7 : Nat) = i
  · subst hi
    have : x.testBit 7 = false := Nat.testBit_lt_two_pow (by norm_num; omega)
    simp [this]
  · simp [hi]

theorem cont_byte_low (u : Nat) : ((u &&& 127) ||| 128) &&& 127 = u &&& 127 := by
  apply Nat.eq_of_testBit_eq
  intro i
  have h127 : (127 : Nat) = 2 ^ 7 - 1 := by norm_num
  have h128 : (128 : Nat) = 2 ^ 7 := by norm_num
  simp only [Nat.testBit_or, Nat.testBit_and, h127, h128,
    Nat.testBit_two_pow_sub_one, Nat.testBit_two_pow]
  by_cases hi : i < 7
  · have : ¬ (7 = i) := by omega
    simp [hi, this]
  · simp [hi]

theorem cont_byte_and_128 (u : Nat) : ((u &&& 127) ||| 128) &&& 128 = 128 := by
  apply Nat.eq_of_testBit_eq
  intro i
  have h128 : (128 : Nat) = 2 ^ 7 := by norm_num
  simp only [Nat.testBit_and, Nat.testBit_or, h128, Nat.testBit_two_pow]
  by_cases hi : (7 : Nat) = i
  · subst hi
    simp
  · simp [hi]

theorem read_go_write (L : Nat) :
    ∀ v c (rest : List Nat), c % 7 = 0 → c ≤ 28 → L < 2 ^ (35 - c) →
      read_varint_from_stream_go (write_varint_nat L ++ rest) v c =
        .ok (v ||| (L <<< c), rest) := by
  induction L using Nat.strong_induction_on with
  | _ L ih =>
    intro v c rest hc7 hc28 hL
    by_cases h : L >>> 7 = 0
    · rw [write_varint_nat_base h]
      have hLlt : L < 128 := by
        rw [Nat.shiftRight_eq_div_pow] at h
        norm_num at h
        omega
      have heq : L &&& 0x7F = L := by
        rw [and_127_eq_mod]
        exact Nat.mod_eq_of_lt hLlt
      have hstop : L &&& 0x80 = 0 := small_and_128 hLlt
      simp [read_varint_from_stream_go, heq, hstop]
    · rw [write_varint_nat_step h]
      have hge : 128 ≤ L := by
        rw [Nat.shiftRight_eq_div_pow] at h
        norm_num at h
        omega
      have hcont : ((L &&& 0x7F) ||| 0x80) &&& 0x80 = 128 := cont_byte_and_128 L
      have hc21 : c ≤ 21 := by
        rcases Nat.lt_or_ge c 28 with hlt | hge28
        · omega
        · exfalso
          have hc : c = 28 := by omega
          subst hc
          norm_num at hL
          omega
      have hguard : ¬ (c + 7 ≥ 35) := by omega
      have hdec : L >>> 7 < L := by
        rw [Nat.shiftRight_eq_div_pow]
        norm_num
        omega
      have hrec : L >>> 7 < 2 ^ (35 - (c + 7)) := by
        rw [Nat.shiftRight_eq_div_pow]
        apply Nat.div_lt_of_lt_mul
        calc L < 2 ^ (35 - c) := hL
          _ = 2 ^ 7 * 2 ^ (35 - (c + 7)) := by
            rw [← pow_add]
            congr 1
            omega
      have ihh := ih (L >>> 7) hdec (v ||| ((L &&& 0x7F) <<< c)) (c + 7) rest
        (by omega) (by omega) hrec
      have hlow := cont_byte_low L
      simp only [read_varint_from_stream_go, List.cons_append, List.append_eq, hcont, hlow]
      rw [if_neg (by norm_num), if_neg hguard, ihh]
      rw [Nat.or_assoc, or_shift_align]

theorem read_varint_write (L : Nat) (rest : List Nat) (hL : L < 4294967296) :
    read_varint_from_stream (write_varint_nat L ++ rest) = .ok (L, rest) := by
  unfold read_varint_from_stream
  rw [read_go_write L 0 0 rest (by norm_num) (by norm_num) (by norm_num; omega)]
  simp

/-- C1 counterexample: on a response declaring a JSON string length of 200000
bytes (well above the 128 KiB = 131072 ceiling the claim posits, and even
satisfying the code's own vacuous sanity condition), `proper_ping` reaches the
allocation with size exactly 200000 — the server-declared varint — although
only 5 bytes have been received in total. -/
theorem c1_alloc_counterexample :
    proper_ping_alloc [1, 0, 192, 154, 12] = some 200000 ∧
    json_len_sanity_condition 200000 = true ∧
    131072 < 200000 ∧
    List.length [1, 0, 192, 154, 12] = 5 ∧
    proper_ping_read_response [1, 0, 192, 154, 12] = .error .unexpected_eof := by
  refine ⟨by decide, by decide, by decide, by decide, by rfl⟩

/-- C1 as amended: `proper_ping` rejects no declared string length at all —
for every length `L` representable in the 32-bit varint, a response whose
header declares `L` reaches the allocation `vec![0u8; json_len]` with size
exactly `L`, the untrusted server-declared value (the sanity-check `if` at
src/protocol.rs:265-268 has an empty body). -/
theorem c1_proper_ping_allocates_declared (L : Nat) (hL : L < 4294967296) :
    proper_ping_alloc ([1, 0] ++ write_varint_nat L) = some L := by
  have h1 : read_varint_from_stream (1 :: 0 :: write_varint_nat L) =
      .ok (1, 0 :: write_varint_nat L) := by
    simp [read_varint_from_stream, read_varint_from_stream_go]
  have h2 : read_varint_from_stream (0 :: write_varint_nat L) =
      .ok (0, write_varint_nat L) := by
    simp [read_varint_from_stream, read_varint_from_stream_go]
  have h3 : read_varint_from_stream (write_varint_nat L ++ []) = .ok (L, []) :=
    read_varint_write L [] hL
  simp only [List.append_nil] at h3
  simp [proper_ping_alloc, h1, h2, h3]

/-- Witness for the amended C1 at the concrete declared length 200000. -/
theorem c1_proper_ping_allocates_declared_witness :
    (200000 < 4294967296) ∧
    proper_ping_alloc ([1, 0] ++ write_varint_nat 200000) = some 200000 :=
  ⟨by decide, c1_proper_ping_allocates_declared 200000 (by decide)⟩

theorem rescan_permit_invariant (s : OrchestratorState)
    (h : Relation.ReflTransGen RescanStep initOrchestrator s) :
    s.available + s.inFlight = PERMITS := by
  induction h with
  | refl => rfl
  | tail _hsub hstep ih =>
    cases hstep with
    | spawn ht => dsimp only at ih ⊢ ; omega
    | finish ht => dsimp only at ih ⊢ ; omega

/-- C2 as amended: in rescan mode a permit is acquired before each spawn and
held for the worker's lifetime, so every reachable state of the rescan
consumer loop has at most `PERMITS = 1000` workers in flight. -/
theorem c2_rescan_inflight_bounded (s : OrchestratorState)
    (h : Relation.ReflTransGen RescanStep initOrchestrator s) :
    s.inFlight ≤ PERMITS := by
  have := rescan_permit_invariant s h
  omega

/-- Witness for the amended C2 at the initial state. -/
theorem c2_rescan_inflight_bounded_witness :
    initOrchestrator.inFlight ≤ PERMITS :=
  c2_rescan_inflight_bounded initOrchestrator Relation.ReflTransGen.refl

theorem discovery_spawn_reach (n : Nat) :
    Relation.ReflTransGen DiscoveryStep initOrchestrator ⟨PERMITS, n⟩ := by
  induction n with
  | zero => exact Relation.ReflTransGen.refl
  | succ n ih =>
    exact Relation.ReflTransGen.tail ih (DiscoveryStep.spawn ⟨PERMITS, n⟩)

/-- C2 counterexample: in discovery mode the stdout loops spawn ping workers
without acquiring any semaphore permit, so a state with 1001 simultaneously
in-flight workers — exceeding the semaphore capacity of 1000 — is reachable. -/
theorem c2_discovery_counterexample :
    Relation.ReflTransGen DiscoveryStep initOrchestrator ⟨PERMITS, 1001⟩ ∧
    PERMITS < 1001 :=
  ⟨discovery_spawn_reach 1001, by decide⟩

/-- C8: masscan stdout lines with fewer than six whitespace fields or an
unparseable 4th-field port are skipped silently, but a line whose 6th field is
present and is not a valid IPv4 address hits the `unwrap` at
src/scanner.rs:341 and panics instead of being skipped — contradicting the
claim that every non-matching line is skipped without error or panic. -/
theorem c8_masscan_line_handling :
    masscan_parse_line "Discovered open port 25565/tcp on 192.168.1.5" =
      .found 25565 (192, 168, 1, 5) ∧
    masscan_parse_line "some malformed line" = .skip ∧
    masscan_parse_line "Discovered open port banana/tcp on 192.168.1.5" = .skip ∧
    masscan_parse_line "Discovered open port 25565/tcp on not-an-ip" = .panicked :=
  ⟨by rfl, by rfl, by rfl, by rfl⟩

theorem utf8Size_one_of_lt {c : Char} (h : c.toNat < 128) : c.utf8Size = 1 := by
  unfold Char.utf8Size
  rw [if_pos]
  show c.val ≤ 127
  rw [UInt32.le_def, BitVec.le_def]
  have h127 : (127 : UInt32).toBitVec.toNat = 127 := by decide
  rw [h127]
  exact Nat.le_of_lt_succ h

theorem parse_hex_digit_bounds {c : Char} {d : Nat}
    (h : parse_hex_digit c = some d) : c.toNat < 128 ∧ d ≤ 15 := by
  unfold parse_hex_digit at h
  have h0 : '0'.toNat = 48 := rfl
  have h9 : '9'.toNat = 57 := rfl
  have ha : 'a'.toNat = 97 := rfl
  have hf : 'f'.toNat = 102 := rfl
  have hA : 'A'.toNat = 65 := rfl
  have hF : 'F'.toNat = 70 := rfl
  split_ifs at h with h1 h2 h3 <;>
    simp only [Option.some.injEq] at h <;> omega

theorem nearest_fold_no_improve (rgb : Int × Int × Int)
    (L : List (MinecraftColorCodes × Int × Int × Int))
    (acc : Int × MinecraftColorCodes)
    (h : ∀ e ∈ L, ¬ color_dist rgb e < acc.1) :
    L.foldl (nearest_step rgb) acc = acc := by
  induction L with
  | nil => rfl
  | cons hd tl ih =>
    rw [List.foldl_cons]
    have hstep : nearest_step rgb acc hd = acc := by
      simp only [nearest_step]
      rw [if_neg (h hd (List.mem_cons_self hd tl))]
    rw [hstep]
    exact ih (fun e he => h e (List.mem_cons_of_mem hd he))

theorem nearest_fold_first_min (rgb : Int × Int × Int) :
    ∀ (L : List (MinecraftColorCodes × Int × Int × Int))
      (acc : Int × MinecraftColorCodes),
      (∃ x ∈ L, color_dist rgb x < acc.1) →
      ∃ pre e post, L = pre ++ e :: post ∧
        L.foldl (nearest_step rgb) acc = (color_dist rgb e, e.1) ∧
        color_dist rgb e < acc.1 ∧
        (∀ y ∈ L, color_dist rgb e ≤ color_dist rgb y) ∧
        (∀ y ∈ pre, color_dist rgb e < color_dist rgb y) := by
  intro L
  induction L with
  | nil =>
    intro acc h
    simp at h
  | cons hd tl ih =>
    intro acc hex
    by_cases hex2 : ∃ x ∈ tl, color_dist rgb x < (nearest_step rgb acc hd).1
    · obtain ⟨pre, e, post, htl, hfold, hlt, hmin, hpre⟩ :=
        ih (nearest_step rgb acc hd) hex2
      have hacc1 : (nearest_step rgb acc hd).1 ≤ acc.1 := by
        simp only [nearest_step]
        split <;> omega
      have hhd : (nearest_step rgb acc hd).1 ≤ color_dist rgb hd := by
        simp only [nearest_step]
        split <;> omega
      refine ⟨hd :: pre, e, post, by rw [List.cons_append, htl], ?_, by omega, ?_, ?_⟩
      · rw [List.foldl_cons]
        exact hfold
      · intro y hy
        rcases List.mem_cons.mp hy with rfl | hy2
        · omega
        · exact hmin y (htl ▸ hy2)
      · intro y hy
        rcases List.mem_cons.mp hy with rfl | hy2
        · omega
        · exact hpre y hy2
    · by_cases hhd : color_dist rgb hd < acc.1
      · have hstep : nearest_step rgb acc hd = (color_dist rgb hd, hd.1) := by
          simp only [nearest_step]
          rw [if_pos hhd]
        have hnone : ∀ y ∈ tl, ¬ color_dist rgb y < color_dist rgb hd := by
          intro y hy hc
          exact hex2 ⟨y, hy, by rw [hstep]; exact hc⟩
        refine ⟨[], hd, tl, rfl, ?_, hhd, ?_, by simp⟩
        · rw [List.foldl_cons, hstep]
          rw [nearest_fold_no_improve rgb tl (color_dist rgb hd, hd.1) hnone]
        · intro y hy
          rcases List.mem_cons.mp hy with rfl | hy2
          · omega
          · have := hnone y hy2
            omega
      · exfalso
        obtain ⟨x, hx, hxd⟩ := hex
        rcases List.mem_cons.mp hx with rfl | hx2
        · exact hhd hxd
        · apply hex2
          refine ⟨x, hx2, ?_⟩
          have hstep : nearest_step rgb acc hd = acc := by
            simp only [nearest_step]
            rw [if_neg hhd]
          rw [hstep]
          exact hxd

/-- C7 as amended: a `#RRGGBB` string whose six components are hex digits is
mapped to the first legacy palette entry minimizing the squared Euclidean RGB
distance (ties broken by the enumeration order, black first); a string that is
neither a named color nor accepted by the guard `starts_with('#') && len == 7`
maps to the code `r`.  (7-byte `#`-strings whose components are not hex digits
fall to neither case: `from_str_radix(..).unwrap_or(0)` silently maps each bad
component to 0, see the counterexample.) -/
theorem c7_color_mapping :
    (∀ (s : String) (c1 c2 c3 c4 c5 c6 : Char) (d1 d2 d3 d4 d5 d6 : Nat),
      s.data = ['#', c1, c2, c3, c4, c5, c6] →
      parse_hex_digit c1 = some d1 → parse_hex_digit c2 = some d2 →
      parse_hex_digit c3 = some d3 → parse_hex_digit c4 = some d4 →
      parse_hex_digit c5 = some d5 → parse_hex_digit c6 = some d6 →
      ∃ pre e post, legacy_palette = pre ++ e :: post ∧
        color_from_str s = e.1 ∧
        (∀ y ∈ legacy_palette,
          color_dist (((16 * d1 + d2 : Nat) : Int), ((16 * d3 + d4 : Nat) : Int),
            ((16 * d5 + d6 : Nat) : Int)) e ≤
          color_dist (((16 * d1 + d2 : Nat) : Int), ((16 * d3 + d4 : Nat) : Int),
            ((16 * d5 + d6 : Nat) : Int)) y) ∧
        (∀ y ∈ pre,
          color_dist (((16 * d1 + d2 : Nat) : Int), ((16 * d3 + d4 : Nat) : Int),
            ((16 * d5 + d6 : Nat) : Int)) e <
          color_dist (((16 * d1 + d2 : Nat) : Int), ((16 * d3 + d4 : Nat) : Int),
            ((16 * d5 + d6 : Nat) : Int)) y)) ∧
    (∀ s : String, lookup_named named_color_table s = none →
      (str_starts_with s "#" && (s.utf8ByteSize == 7)) = false →
      get_code (color_from_str s) = 'r') := by
  constructor
  · intro s c1 c2 c3 c4 c5 c6 d1 d2 d3 d4 d5 d6 hdata h1 h2 h3 h4 h5 h6
    obtain ⟨data⟩ := s
    simp only [] at hdata
    subst hdata
    have hb1 := parse_hex_digit_bounds h1
    have hb2 := parse_hex_digit_bounds h2
    have hb3 := parse_hex_digit_bounds h3
    have hb4 := parse_hex_digit_bounds h4
    have hb5 := parse_hex_digit_bounds h5
    have hb6 := parse_hex_digit_bounds h6
    have hplus : parse_hex_digit '+' = none := by decide
    have hc1 : c1 ≠ '+' := fun he => by rw [he, hplus] at h1; cases h1
    have hc3 : c3 ≠ '+' := fun he => by rw [he, hplus] at h3; cases h3
    have hc5 : c5 ≠ '+' := fun he => by rw [he, hplus] at h5; cases h5
    have hlook : lookup_named named_color_table ⟨['#', c1, c2, c3, c4, c5, c6]⟩ = none := by
      simp +decide [lookup_named, named_color_table]
    have hstart : str_starts_with ⟨['#', c1, c2, c3, c4, c5, c6]⟩ "#" = true := by
      unfold str_starts_with
      show ('#' :: []).isPrefixOf ('#' :: [c1, c2, c3, c4, c5, c6]) = true
      rw [List.isPrefixOf]
      simp
    have hsize : String.utf8ByteSize ⟨['#', c1, c2, c3, c4, c5, c6]⟩ = 7 := by
      simp only [String.utf8ByteSize_mk, String.utf8Len_cons, String.utf8Len_nil]
      rw [utf8Size_one_of_lt (show '#'.toNat < 128 by decide),
        utf8Size_one_of_lt hb1.1, utf8Size_one_of_lt hb2.1, utf8Size_one_of_lt hb3.1,
        utf8Size_one_of_lt hb4.1, utf8Size_one_of_lt hb5.1, utf8Size_one_of_lt hb6.1]
    have hcfs : color_from_str ⟨['#', c1, c2, c3, c4, c5, c6]⟩ =
        hex_to_nearest_legacy ⟨['#', c1, c2, c3, c4, c5, c6]⟩ := by
      unfold color_from_str
      rw [hlook, hstart, hsize]
      simp
    have hp12 : parse_hex_u8 c1 c2 = some (16 * d1 + d2) := by
      unfold parse_hex_u8
      rw [if_neg hc1, h1, h2]
    have hp34 : parse_hex_u8 c3 c4 = some (16 * d3 + d4) := by
      unfold parse_hex_u8
      rw [if_neg hc3, h3, h4]
    have hp56 : parse_hex_u8 c5 c6 = some (16 * d5 + d6) := by
      unfold parse_hex_u8
      rw [if_neg hc5, h5, h6]
    have hhex : hex_to_nearest_legacy ⟨['#', c1, c2, c3, c4, c5, c6]⟩ =
        (legacy_palette.foldl
          (nearest_step (((16 * d1 + d2 : Nat) : Int), ((16 * d3 + d4 : Nat) : Int),
            ((16 * d5 + d6 : Nat) : Int)))
          (2147483647, .Reset)).2 := by
      unfold hex_to_nearest_legacy
      show (legacy_palette.foldl
          (nearest_step
            (((parse_hex_u8 c1 c2).getD 0 : Nat), ((parse_hex_u8 c3 c4).getD 0 : Nat),
              ((parse_hex_u8 c5 c6).getD 0 : Nat)))
          (2147483647, .Reset)).2 = _
      rw [hp12, hp34, hp56]
      rfl
    have hrb : 16 * d1 + d2 ≤ 255 := by omega
    have hgb : 16 * d3 + d4 ≤ 255 := by omega
    have hbb : 16 * d5 + d6 ≤ 255 := by omega
    have hex_exists : ∃ x ∈ legacy_palette,
        color_dist (((16 * d1 + d2 : Nat) : Int), ((16 * d3 + d4 : Nat) : Int),
          ((16 * d5 + d6 : Nat) : Int)) x <
        ((2147483647 : Int), MinecraftColorCodes.Reset).1 := by
      refine ⟨(.Black, 0, 0, 0), by simp [legacy_palette], ?_⟩
      unfold color_dist
      have hR0 : (0 : Int) ≤ ((16 * d1 + d2 : Nat) : Int) := Int.natCast_nonneg _
      have hR1 : ((16 * d1 + d2 : Nat) : Int) ≤ 255 := by exact_mod_cast hrb
      have hG0 : (0 : Int) ≤ ((16 * d3 + d4 : Nat) : Int) := Int.natCast_nonneg _
      have hG1 : ((16 * d3 + d4 : Nat) : Int) ≤ 255 := by exact_mod_cast hgb
      have hB0 : (0 : Int) ≤ ((16 * d5 + d6 : Nat) : Int) := Int.natCast_nonneg _
      have hB1 : ((16 * d5 + d6 : Nat) : Int) ≤ 255 := by exact_mod_cast hbb
      have e1 : ((0 : Int) - ((16 * d1 + d2 : Nat) : Int)) *
          ((0 : Int) - ((16 * d1 + d2 : Nat) : Int)) ≤ 65025 := by nlinarith
      have e2 : ((0 : Int) - ((16 * d3 + d4 : Nat) : Int)) *
          ((0 : Int) - ((16 * d3 + d4 : Nat) : Int)) ≤ 65025 := by nlinarith
      have e3 : ((0 : Int) - ((16 * d5 + d6 : Nat) : Int)) *
          ((0 : Int) - ((16 * d5 + d6 : Nat) : Int)) ≤ 65025 := by nlinarith
      simp only []
      linarith
    obtain ⟨pre, e, post, hsplit, hfold, _hlt, hmin, hpre⟩ :=
      nearest_fold_first_min _ legacy_palette ((2147483647 : Int), .Reset) hex_exists
    exact ⟨pre, e, post, hsplit, by rw [hcfs, hhex, hfold], hmin, hpre⟩
  · intro s hlook hguard
    simp [color_from_str, hlook, hguard, get_code]

/-- Witness for the amended C7: the hex branch at `"#FF5555"` (components
255, 85, 85) and the unknown branch at `"graey"`. -/
theorem c7_color_mapping_witness :
    (∃ pre e post, legacy_palette = pre ++ e :: post ∧
        color_from_str "#FF5555" = e.1 ∧
        (∀ y ∈ legacy_palette,
          color_dist (((16 * 15 + 15 : Nat) : Int), ((16 * 5 + 5 : Nat) : Int),
            ((16 * 5 + 5 : Nat) : Int)) e ≤
          color_dist (((16 * 15 + 15 : Nat) : Int), ((16 * 5 + 5 : Nat) : Int),
            ((16 * 5 + 5 : Nat) : Int)) y) ∧
        (∀ y ∈ pre,
          color_dist (((16 * 15 + 15 : Nat) : Int), ((16 * 5 + 5 : Nat) : Int),
            ((16 * 5 + 5 : Nat) : Int)) e <
          color_dist (((16 * 15 + 15 : Nat) : Int), ((16 * 5 + 5 : Nat) : Int),
            ((16 * 5 + 5 : Nat) : Int)) y)) ∧
    get_code (color_from_str "graey") = 'r' :=
  ⟨c7_color_mapping.1 "#FF5555" 'F' 'F' '5' '5' '5' '5' 15 15 5 5 5 5
      rfl rfl rfl rfl rfl rfl rfl,
   c7_color_mapping.2 "graey" (by decide) (by decide)⟩

/-- C7 counterexample: `"#zzzzzz"` is neither a named color nor a hex string
of the form `#RRGGBB` (its components are not hex digits), yet the mapping
does not emit `r`: the guard only checks `#` and byte length 7, the failed
component parses default to 0 via `unwrap_or(0)`, and the nearest palette
entry to `(0,0,0)` is black, code `0`. -/
theorem c7_unknown_hex_counterexample :
    lookup_named named_color_table "#zzzzzz" = none ∧
    parse_hex_digit 'z' = none ∧
    color_from_str "#zzzzzz" = MinecraftColorCodes.Black ∧
    get_code (color_from_str "#zzzzzz") = '0' :=
  ⟨by decide, by decide, by rfl, by rfl⟩

/-- C4: `get_type` implements exactly the priority cascade of §4.3 — `modded`
present gives `Neoforge`, else `forge_data` present gives `Lexforge`, else
the first case-insensitive substring match on `version.name` in the order
velocity, waterfall, bungeecord, leaves, folia, purpur, pufferfish, paper,
spigot, bukkit, defaulting to `Java`. -/
theorem c4_get_type_cascade (s : Server) : get_type s = get_type_spec s := by
  unfold get_type get_type_spec name_rules
  by_cases h0 : s.modded.isSome
  · simp [h0]
  by_cases h1 : s.forge_data.isSome
  · simp [h0, h1]
  simp only [h0, h1, if_false]
  by_cases h2 : str_contains (to_lowercase s.version.name) "velocity"
  · simp [List.findSome?, h2]
  by_cases h3 : str_contains (to_lowercase s.version.name) "waterfall"
  · simp [List.findSome?, h2, h3]
  by_cases h4 : str_contains (to_lowercase s.version.name) "bungeecord"
  · simp [List.findSome?, h2, h3, h4]
  by_cases h5 : str_contains (to_lowercase s.version.name) "leaves"
  · simp [List.findSome?, h2, h3, h4, h5]
  by_cases h6 : str_contains (to_lowercase s.version.name) "folia"
  · simp [List.findSome?, h2, h3, h4, h5, h6]
  by_cases h7 : str_contains (to_lowercase s.version.name) "purpur"
  · simp [List.findSome?, h2, h3, h4, h5, h6, h7]
  by_cases h8 : str_contains (to_lowercase s.version.name) "pufferfish"
  · simp [List.findSome?, h2, h3, h4, h5, h6, h7, h8]
  by_cases h9 : str_contains (to_lowercase s.version.name) "paper"
  · simp [List.findSome?, h2, h3, h4, h5, h6, h7, h8, h9]
  by_cases h10 : str_contains (to_lowercase s.version.name) "spigot"
  · simp [List.findSome?, h2, h3, h4, h5, h6, h7, h8, h9, h10]
  by_cases h11 : str_contains (to_lowercase s.version.name) "bukkit"
  · simp [List.findSome?, h2, h3, h4, h5, h6, h7, h8, h9, h10, h11]
  simp [List.findSome?, h2, h3, h4, h5, h6, h7, h8, h9, h10, h11]

/-- C10: `check_opt_out` returns `false` whenever `description_formatted` is
absent, and returns `true` exactly when it is present and contains the
substring `§b§d§f§d§b`. -/
theorem c10_check_opt_out (srv : Server) :
    (srv.description_formatted = none → check_opt_out srv = false) ∧
    (check_opt_out srv = true ↔
      ∃ d, srv.description_formatted = some d ∧
        str_contains d "§b§d§f§d§b" = true) := by
  constructor
  · intro h
    unfold check_opt_out
    rw [h]
  · unfold check_opt_out
    cases hd : srv.description_formatted with
    | none => simp
    | some d => simp

/-- Witness for C10 at a concrete record with no formatted description. -/
theorem c10_check_opt_out_witness :
    check_opt_out
      ⟨none, ⟨"1.8", 47⟩, none, ⟨20, 0, none⟩, none, none, none, none, none,
        none⟩ = false :=
  (c10_check_opt_out
    ⟨none, ⟨"1.8", 47⟩, none, ⟨20, 0, none⟩, none, none, none, none, none,
      none⟩).1 rfl

theorem mem_insert_sorted {x e : String × JValue} :
    ∀ {m : List (String × JValue)}, x ∈ insert_sorted m e → x = e ∨ x ∈ m := by
  intro m
  induction m with
  | nil =>
    intro h
    simp [insert_sorted] at h
    exact Or.inl h
  | cons hd tl ih =>
    obtain ⟨k, v⟩ := hd
    intro h
    unfold insert_sorted at h
    split_ifs at h with h1 h2
    · rcases List.mem_cons.mp h with rfl | h'
      · exact Or.inl rfl
      · exact Or.inr h'
    · rcases List.mem_cons.mp h with rfl | h'
      · exact Or.inl rfl
      · exact Or.inr (List.mem_cons_of_mem _ h')
    · rcases List.mem_cons.mp h with rfl | h'
      · exact Or.inr (List.mem_cons_self _ _)
      · rcases ih h' with h2 | h2
        · exact Or.inl h2
        · exact Or.inr (List.mem_cons_of_mem _ h2)

theorem insert_sorted_pairwise {m : List (String × JValue)} (e : String × JValue)
    (h : m.Pairwise (fun a b => a.1 < b.1)) :
    (insert_sorted m e).Pairwise (fun a b => a.1 < b.1) := by
  induction m with
  | nil => simp [insert_sorted]
  | cons hd tl ih =>
    obtain ⟨k, v⟩ := hd
    rw [List.pairwise_cons] at h
    obtain ⟨hk, htl⟩ := h
    unfold insert_sorted
    split_ifs with h1 h2
    · rw [List.pairwise_cons]
      refine ⟨?_, ?_⟩
      · intro b hb
        rcases List.mem_cons.mp hb with rfl | hb2
        · exact h1
        · exact lt_trans h1 (hk b hb2)
      · rw [List.pairwise_cons]
        exact ⟨hk, htl⟩
    · rw [List.pairwise_cons]
      refine ⟨?_, htl⟩
      intro b hb
      rw [h2]
      exact hk b hb
    · have hk2 : k < e.1 := by
        rcases lt_trichotomy e.1 k with h | h | h
        · exact absurd h h1
        · exact absurd h h2
        · exact h
      rw [List.pairwise_cons]
      refine ⟨?_, ih htl⟩
      intro b hb
      rcases mem_insert_sorted hb with rfl | hb2
      · exact hk2
      · exact hk b hb2

theorem insert_sorted_perm {m : List (String × JValue)} {e : String × JValue}
    (h : e.1 ∉ m.map Prod.fst) : List.Perm (insert_sorted m e) (e :: m) := by
  induction m with
  | nil => simp [insert_sorted]
  | cons hd tl ih =>
    obtain ⟨k, v⟩ := hd
    simp only [List.map_cons, List.mem_cons] at h
    push_neg at h
    obtain ⟨hne, hnotin⟩ := h
    unfold insert_sorted
    split_ifs with h1
    · exact List.Perm.refl _
    · exact List.Perm.trans (List.Perm.cons _ (ih hnotin))
        (List.Perm.swap e (k, v) tl)

theorem foldl_insert_perm :
    ∀ (l acc : List (String × JValue)),
      ((acc ++ l).map Prod.fst).Nodup →
      List.Perm (l.foldl insert_sorted acc) (acc ++ l) := by
  intro l
  induction l with
  | nil =>
    intro acc _
    simp
  | cons x l ih =>
    intro acc h
    rw [List.foldl_cons]
    have hx : x.1 ∉ acc.map Prod.fst := by
      simp only [List.map_append, List.map_cons, List.nodup_append] at h
      obtain ⟨_, _, hdisj⟩ := h
      exact fun hmem => hdisj hmem (List.mem_cons_self _ _)
    have hperm1 : List.Perm (insert_sorted acc x) (x :: acc) := insert_sorted_perm hx
    have hp3 : List.Perm ((x :: acc) ++ l) (acc ++ x :: l) := by
      have hm : List.Perm (acc ++ x :: l) (x :: (acc ++ l)) := List.perm_middle
      simpa using hm.symm
    have hnodup2 : ((insert_sorted acc x ++ l).map Prod.fst).Nodup := by
      have hp : List.Perm (insert_sorted acc x ++ l) ((x :: acc) ++ l) :=
        hperm1.append_right l
      rw [List.Perm.nodup_iff (hp.map Prod.fst)]
      rw [List.Perm.nodup_iff (hp3.map Prod.fst)]
      exact h
    exact List.Perm.trans (ih _ hnodup2)
      (List.Perm.trans (hperm1.append_right l) hp3)

theorem foldl_insert_pairwise :
    ∀ (l acc : List (String × JValue)),
      acc.Pairwise (fun a b => a.1 < b.1) →
      (l.foldl insert_sorted acc).Pairwise (fun a b => a.1 < b.1) := by
  intro l
  induction l with
  | nil => intro acc h; exact h
  | cons x l ih =>
    intro acc h
    rw [List.foldl_cons]
    exact ih _ (insert_sorted_pairwise x h)

theorem canon_perm_eq {l l' : List (String × JValue)}
    (hnd : (l.map Prod.fst).Nodup) (hp : List.Perm l l') :
    l.foldl insert_sorted [] = l'.foldl insert_sorted [] := by
  haveI : IsAntisymm (String × JValue) (fun a b => a.1 < b.1) :=
    ⟨fun a b h1 h2 => absurd (lt_trans h1 h2) (lt_irrefl _)⟩
  have hnd2 : (l'.map Prod.fst).Nodup := ((hp.map Prod.fst).nodup_iff).mp hnd
  have p1 : List.Perm (l.foldl insert_sorted []) l := by
    simpa using foldl_insert_perm l [] (by simpa using hnd)
  have p2 : List.Perm (l'.foldl insert_sorted []) l' := by
    simpa using foldl_insert_perm l' [] (by simpa using hnd2)
  have s1 := foldl_insert_pairwise l [] List.Pairwise.nil
  have s2 := foldl_insert_pairwise l' [] List.Pairwise.nil
  exact List.eq_of_perm_of_sorted (p1.trans (hp.trans p2.symm)) s1 s2

/-- C5: `build_formatted_description` on an object emits all format codes
first, then the `text` field, then the recursively formatted `extra` value;
the result is independent of the serialized field order (the object's fields
live in serde_json's key-sorted `BTreeMap`, so any permutation of the
serialized fields yields the same map); and the S6 example
`{"extra":[{"text":" World"}],"bold":true,"color":"red","text":"Hello"}`
formats to `"§l§cHello World"`. -/
theorem c5_description_formatting :
    (∀ l l' : List (String × JValue), (l.map Prod.fst).Nodup → List.Perm l l' →
      build_formatted_description (mk_obj l) =
        build_formatted_description (mk_obj l')) ∧
    (∀ entries : List (String × JValue),
      build_formatted_description (.obj entries) =
        build_flags entries ++ obj_text_part entries ++ obj_extra_part entries) ∧
    build_formatted_description (mk_obj
      [("extra", .arr [mk_obj [("text", .str " World")]]),
       ("bold", .bool true), ("color", .str "red"), ("text", .str "Hello")]) =
      "§l§cHello World" := by
  refine ⟨?_, ?_, ?_⟩
  · intro l l' hnd hp
    unfold mk_obj
    rw [canon_perm_eq hnd hp]
  · intro entries
    rw [build_formatted_description]
    unfold obj_text_part obj_extra_part
    cases hx : lookup_entry entries "extra" <;> simp [hx]
  · simp +decide [mk_obj, insert_sorted, build_formatted_description, build_concat,
      build_flags, flag_emit, lookup_entry, color_from_str, lookup_named,
      named_color_table, get_code]

/-- Witness for C5 at a two-field object given in both serialized orders. -/
theorem c5_description_formatting_witness :
    build_formatted_description
      (mk_obj [("text", JValue.str "Hello"), ("bold", JValue.bool true)]) =
    build_formatted_description
      (mk_obj [("bold", JValue.bool true), ("text", JValue.str "Hello")]) :=
  c5_description_formatting.1 _ _ (by decide)
    (List.Perm.swap ("bold", JValue.bool true) ("text", JValue.str "Hello") [])

/-- C6 counterexample: the decoded string `"MOTD§5§20§1"` matches neither
documented format — it is not the 1.6 format and its `§`-split has four
fields, not exactly three — yet `legacy_ping` does not return
`MalformedResponse`: the check is `parts.len() >= 3`, so a synthesized
status is returned. -/
theorem c6_legacy_counterexample :
    legacy_parse "MOTD§5§20§1" = some ⟨"Legacy < 1.6", 0, "MOTD", 5, 20⟩ ∧
    (split_char "MOTD§5§20§1" '§').length = 4 ∧
    str_starts_with "MOTD§5§20§1" "§1\x00" = false :=
  ⟨by decide, by decide, by decide⟩

/-- C6 as amended: `legacy_ping` synthesizes a status exactly when the
decoded string starts with `"§1\0"` and splits on NUL into **at least** six
fields, or does not start with `"§1\0"` and splits on `§` into **at least**
three fields; in the latter case it synthesizes `version.name = "Legacy <
1.6"`, `protocol = 0`, and motd/online/max from the first three fields
(numeric fields that fail to parse default to 0); any other string yields
`MalformedResponse`. -/
theorem c6_legacy_ping (s : String) :
    ((legacy_parse s).isSome = true ↔
      (str_starts_with s "§1\x00" = true ∧ (split_char s '\x00').length ≥ 6) ∨
      (str_starts_with s "§1\x00" = false ∧ (split_char s '§').length ≥ 3)) ∧
    (str_starts_with s "§1\x00" = false → (split_char s '§').length ≥ 3 →
      legacy_parse s = some ⟨"Legacy < 1.6", 0, (split_char s '§').getD 0 "",
        (parse_i32 ((split_char s '§').getD 1 "")).getD 0,
        (parse_i32 ((split_char s '§').getD 2 "")).getD 0⟩) ∧
    (str_starts_with s "§1\x00" = true → (split_char s '\x00').length ≥ 6 →
      legacy_parse s = some ⟨(split_char s '\x00').getD 2 "",
        (parse_i32 ((split_char s '\x00').getD 1 "")).getD 0,
        (split_char s '\x00').getD 3 "",
        (parse_i32 ((split_char s '\x00').getD 4 "")).getD 0,
        (parse_i32 ((split_char s '\x00').getD 5 "")).getD 0⟩) := by
  refine ⟨?_, ?_, ?_⟩
  · unfold legacy_parse
    cases hb : str_starts_with s "§1\x00"
    · by_cases hl : (split_char s '§').length ≥ 3 <;> simp [hb, hl]
    · by_cases hl : (split_char s '\x00').length ≥ 6 <;> simp [hb, hl]
  · intro hb hl
    unfold legacy_parse
    simp [hb, hl]
  · intro hb hl
    unfold legacy_parse
    simp [hb, hl]

/-- Witness for the amended C6 at the S3 scenario string `"MOTD§5§20"`. -/
theorem c6_legacy_ping_witness :
    legacy_parse "MOTD§5§20" = some ⟨"Legacy < 1.6", 0, "MOTD", 5, 20⟩ :=
  (c6_legacy_ping "MOTD§5§20").2.1 (by decide) (by decide)
